import Mathlib

/-!
Verification of the fixed-capacity arena in src/fixed-arena/main.cpp:
a bump-pointer allocator over a fixed byte buffer together with a bounded
ledger of destructor entries that is replayed back to front at reset and
at destruction.  All size_t arithmetic of the source is embedded as
natural-number arithmetic taken modulo the 64-bit word.
-/

namespace FixedArena

/-- Word modulus of the platform: size_t is 64 bits wide, so every size_t
value lives in `[0, M)` and arithmetic wraps modulo `M`. -/
def M : Nat := 2 ^ 64

/-- Models the size_t expression `a - 1` with two's-complement wraparound
(`0 - 1` wraps to `M - 1`). -/
def sub_one (a : Nat) : Nat := (a + (M - 1)) % M

/-- Embedding of `FixedArena::align_up` (main.cpp:80-83):
`mask = alignment - 1; return (x + mask) & ~mask;` computed in size_t
arithmetic.  On a 64-bit word `~mask` is `M - 1 - mask`. -/
def align_up (x alignment : Nat) : Nat :=
  ((x + sub_one alignment) % M) &&& (M - 1 - sub_one alignment)

/-- A ledger entry (`FixedArena::DtorEntry`, main.cpp:51-54): `fn` is the
type-erased `destroy<T>` function, identified here by a numeric `tag`;
`ptr` is the object's address, kept as a byte offset from `buffer_`. -/
structure DtorEntry where
  tag : Nat
  ptr : Nat
  deriving DecidableEq

/-- State of a `FixedArena<N, MaxDtors>` (main.cpp:12-90): `cap` is the
template parameter `N`, `maxDtors` is `MaxDtors`, `offset` is `offset_`,
and `dtors` is the `dtors_` array restricted to its first `dtor_count_`
entries, in insertion order. -/
structure Arena where
  cap : Nat
  maxDtors : Nat
  offset : Nat
  dtors : List DtorEntry
  deriving DecidableEq

/-- Embedding of `FixedArena::allocate_aligned` (main.cpp:72-78).  Returns
`none` exactly when `aligned + size > N` (the code returns `nullptr`
without touching `offset_`); otherwise returns the relative address
`aligned` of the allocation together with the updated `offset_`.  The sum
`aligned + size` is a size_t sum, hence taken modulo `M`. -/
def allocate_aligned (cap off size alignment : Nat) : Option (Nat × Nat) :=
  let aligned := align_up off alignment
  if cap < (aligned + size) % M then none
  else some (aligned, (aligned + size) % M)

/-- Embedding of `FixedArena::push_dtor` (main.cpp:61-70).  When
`dtor_count_ >= MaxDtors` the code prints a message and calls `::abort()`;
that branch is modelled as `none`.  Otherwise the entry is stored at index
`dtor_count_` and the count incremented, i.e. appended in insertion
order. -/
def push_dtor (st : Arena) (e : DtorEntry) : Option Arena :=
  if st.maxDtors ≤ st.dtors.length then none
  else some { st with dtors := st.dtors ++ [e] }

/-- Outcome of `FixedArena::make`.  `ok addr st` means a non-null `T*` at
byte offset `addr` was returned with new arena state `st`; `fail st` means
`nullptr` was returned (no object constructed) with state `st`; `fatal
addr` means `push_dtor` aborted the whole process after the object had
already been constructed at byte offset `addr`, so no arena state
survives. -/
inductive MakeResult where
  | ok (addr : Nat) (st : Arena)
  | fail (st : Arena)
  | fatal (addr : Nat)
  deriving DecidableEq

/-- Embedding of `FixedArena::make` (main.cpp:25-36) for a type `T` with
`sizeof(T) = size`, `alignof(T) = align` and `destroy<T>` identified by
`tag`, assuming the `T` constructor returns normally.  `allocate_aligned`
runs first; on `nullptr` the function returns `nullptr` with the arena
untouched and no object constructed.  Otherwise the object is constructed
at the returned address and `push_dtor` records its finalizer — or aborts
the process when the ledger is full. -/
def make (st : Arena) (size align tag : Nat) : MakeResult :=
  match allocate_aligned st.cap st.offset size align with
  | none => .fail st
  | some (addr, newOff) =>
    match push_dtor { st with offset := newOff } ⟨tag, addr⟩ with
    | none => .fatal addr
    | some st2 => .ok addr st2

/-- Trace of the loop in `FixedArena::reset` (main.cpp:40-42):
`for (i = dtor_count_; i > 0; --i) dtors_[i-1].fn(dtors_[i-1].ptr);`.
`invoke_from l i` is the list of entries invoked by the loop started at
counter `i` over ledger `l`, in invocation order. -/
def invoke_from (l : List DtorEntry) : Nat → List DtorEntry
  | 0 => []
  | i + 1 => l.getD i ⟨0, 0⟩ :: invoke_from l i

/-- Embedding of `FixedArena::reset` (main.cpp:38-45): invokes the
recorded finalizers back to front (the first component is the invocation
trace), then sets `dtor_count_ = 0` and `offset_ = 0`. -/
def reset (st : Arena) : List DtorEntry × Arena :=
  (invoke_from st.dtors st.dtors.length, { st with dtors := [], offset := 0 })

/-- Embedding of the destructor `FixedArena::~FixedArena` (main.cpp:20-22):
its body calls `reset()`; the observable effect of teardown is the
invocation trace, the state dying with the object. -/
def destructor (st : Arena) : List DtorEntry := (reset st).1

/-- Outcome of `FixedArena::make` when the `T` constructor throws:
`fail st` is the `nullptr` return from a failed byte allocation (the
constructor is never entered); `thrown st` means the placement new raised
and the exception propagated to the caller, leaving arena state `st`. -/
inductive ThrowResult where
  | fail (st : Arena)
  | thrown (st : Arena)
  deriving DecidableEq

/-- Embedding of `FixedArena::make` (main.cpp:25-36) under a throwing `T`
constructor: `allocate_aligned` has already advanced `offset_` when the
placement new raises, `push_dtor` is never reached, and `make` has no
handler, so the exception propagates. -/
def make_ctor_throws (st : Arena) (size align : Nat) : ThrowResult :=
  match allocate_aligned st.cap st.offset size align with
  | none => .fail st
  | some (_, newOff) => .thrown { st with offset := newOff }

/-- Runs a list of make requests `(size, align, tag)` in order; yields
`some (entries, st)` when every make succeeds, where `entries` lists the
constructed objects (tag and address) in construction order. -/
def runMakes : Arena → List (Nat × Nat × Nat) → Option (List DtorEntry × Arena)
  | st, [] => some ([], st)
  | st, (size, align, tag) :: rest =>
    match make st size align tag with
    | .ok addr st' => (runMakes st' rest).map (fun p => (⟨tag, addr⟩ :: p.1, p.2))
    | _ => none

/-- The `round_up` of the specification, in plain arithmetic: for
`1 ≤ a`, the least multiple of `a` that is at least `x`. -/
def roundUp (x a : Nat) : Nat := a * ((x + a - 1) / a)

/-- A make request whose parameters can come from an actual C++
instantiation on the 64-bit platform: the alignment is `alignof(T)`,
always a power of two representable in size_t, the size is `sizeof(T)`,
at least 1, and the quantities involved are far from wrapping size_t. -/
def realisticReq (cap size align : Nat) : Prop :=
  (∃ k, k ≤ 63 ∧ align = 2 ^ k) ∧ 1 ≤ size ∧ cap + align + size ≤ M

/-- One arena operation inside an active period (no reset): a make that
either returns a non-null handle or returns `nullptr`.  A fatal make
aborts the process, so nothing can follow it. -/
inductive Step : Arena → Arena → Prop where
  | ok (st st' : Arena) (size align tag addr : Nat)
      (hreq : realisticReq st.cap size align)
      (h : make st size align tag = .ok addr st') : Step st st'
  | nullStep (st st' : Arena) (size align tag : Nat)
      (h : make st size align tag = .fail st') : Step st st'

/-! ### Arithmetic helper lemmas -/

theorem M_pos : 0 < M := by norm_num [M]

theorem land_high_bits (n k : Nat) (hn : n < M) (hk : k ≤ 64) :
    n &&& (M - 2 ^ k) = 2 ^ k * (n / 2 ^ k) := by
  have hM : M = 2 ^ 64 := rfl
  have h2 : M - 2 ^ k = (2 ^ (64 - k) - 1) <<< k := by
    rw [hM, Nat.shiftLeft_eq, Nat.sub_mul, one_mul, ← pow_add, Nat.sub_add_cancel hk]
  have h3 : 2 ^ k * (n / 2 ^ k) = (n >>> k) <<< k := by
    rw [Nat.shiftRight_eq_div_pow, Nat.shiftLeft_eq, Nat.mul_comm]
  rw [h2, h3]
  apply Nat.eq_of_testBit_eq
  intro i
  rw [Nat.testBit_land, Nat.testBit_shiftLeft, Nat.testBit_shiftLeft,
      Nat.testBit_two_pow_sub_one, Nat.testBit_shiftRight]
  by_cases hki : i ≥ k
  · have hik : k + (i - k) = i := by omega
    by_cases hi : i < 64
    · have h64 : i - k < 64 - k := by omega
      simp [hki, hik, h64]
    · have hbit : n.testBit i = false :=
        Nat.testBit_lt_two_pow (lt_of_lt_of_le hn (by
          rw [hM]; exact Nat.pow_le_pow_right (by norm_num) (by omega)))
      have h64 : ¬ (i - k < 64 - k) := by omega
      simp [hki, hik, h64, hbit]
  · simp [hki]

theorem sub_one_pow (k : Nat) (hk : k ≤ 63) : sub_one (2 ^ k) = 2 ^ k - 1 := by
  have h1 : (1 : Nat) ≤ 2 ^ k := Nat.one_le_two_pow
  have h2 : (2 : Nat) ^ k < 2 ^ 64 := Nat.pow_lt_pow_right (by norm_num) (by omega)
  have hM : M = 2 ^ 64 := rfl
  unfold sub_one
  rw [hM]
  have h3 : 2 ^ k + (2 ^ 64 - 1) = 2 ^ 64 + (2 ^ k - 1) := by omega
  rw [h3, Nat.add_mod_left, Nat.mod_eq_of_lt (by omega)]

theorem align_up_pow_eq (x k : Nat) (hk : k ≤ 63) (hx : x + 2 ^ k - 1 < M) :
    align_up x (2 ^ k) = roundUp x (2 ^ k) := by
  have h1 : (1 : Nat) ≤ 2 ^ k := Nat.one_le_two_pow
  have h2 : (2 : Nat) ^ k < M := by
    have : (2 : Nat) ^ k < 2 ^ 64 := Nat.pow_lt_pow_right (by norm_num) (by omega)
    simpa [M] using this
  unfold align_up roundUp
  rw [sub_one_pow k hk]
  have hmask : M - 1 - (2 ^ k - 1) = M - 2 ^ k := by omega
  have hxm : (x + (2 ^ k - 1)) % M = x + 2 ^ k - 1 := by
    rw [Nat.mod_eq_of_lt (by omega)]
    omega
  rw [hmask, hxm]
  exact land_high_bits (x + 2 ^ k - 1) k hx (by omega)

theorem le_roundUp (x a : Nat) (ha : 1 ≤ a) : x ≤ roundUp x a := by
  unfold roundUp
  have h1 := Nat.div_add_mod (x + a - 1) a
  have h2 := Nat.mod_lt (x + a - 1) (show 0 < a by omega)
  omega

theorem roundUp_le (x a : Nat) : roundUp x a ≤ x + a - 1 := by
  unfold roundUp
  have h1 := Nat.div_add_mod (x + a - 1) a
  omega

theorem roundUp_mod (x a : Nat) : roundUp x a % a = 0 := by
  unfold roundUp
  exact Nat.mul_mod_right a _

theorem roundUp_least (x a y : Nat) (ha : 1 ≤ a) (hxy : x ≤ y) (hy : y % a = 0) :
    roundUp x a ≤ y := by
  unfold roundUp
  have h1 := Nat.div_add_mod y a
  have h2 : a * (y / a) = y := by omega
  have h3 : (x + a - 1) / a < y / a + 1 := by
    rw [Nat.div_lt_iff_lt_mul (show 0 < a by omega)]
    have h4 : (y / a + 1) * a = a * (y / a) + a := by ring
    omega
  calc a * ((x + a - 1) / a) ≤ a * (y / a) := Nat.mul_le_mul_left a (by omega)
    _ = y := h2

/-! ### Characterization of the allocator under realistic parameters -/

theorem allocate_aligned_realistic (cap off size k : Nat) (hk : k ≤ 63)
    (hoff : off ≤ cap) (hov : cap + 2 ^ k + size ≤ M) :
    allocate_aligned cap off size (2 ^ k) =
      if cap < roundUp off (2 ^ k) + size then none
      else some (roundUp off (2 ^ k), roundUp off (2 ^ k) + size) := by
  have h1 : (1 : Nat) ≤ 2 ^ k := Nat.one_le_two_pow
  have hx : off + 2 ^ k - 1 < M := by omega
  have hru : roundUp off (2 ^ k) ≤ off + 2 ^ k - 1 := roundUp_le off _
  have hmod : (roundUp off (2 ^ k) + size) % M = roundUp off (2 ^ k) + size :=
    Nat.mod_eq_of_lt (by omega)
  unfold allocate_aligned
  rw [align_up_pow_eq off k hk hx]
  show (if cap < (roundUp off (2 ^ k) + size) % M then none
        else some (roundUp off (2 ^ k), (roundUp off (2 ^ k) + size) % M)) = _
  rw [hmod]

theorem make_fail_iff (st : Arena) (size align tag : Nat) (st' : Arena) :
    make st size align tag = .fail st' ↔
      (allocate_aligned st.cap st.offset size align = none ∧ st' = st) := by
  unfold make push_dtor
  cases h : allocate_aligned st.cap st.offset size align with
  | none => simp [eq_comm]
  | some p =>
    obtain ⟨addr, newOff⟩ := p
    by_cases hfull : st.maxDtors ≤ st.dtors.length
    · simp [hfull]
    · simp [hfull]

theorem make_ok_general (st : Arena) (size align tag addr : Nat) (st' : Arena)
    (h : make st size align tag = .ok addr st') :
    st'.cap = st.cap ∧ st'.maxDtors = st.maxDtors ∧
    st'.dtors = st.dtors ++ [⟨tag, addr⟩] := by
  unfold make push_dtor at h
  cases halloc : allocate_aligned st.cap st.offset size align with
  | none => rw [halloc] at h; simp at h
  | some p =>
    obtain ⟨a, newOff⟩ := p
    rw [halloc] at h
    by_cases hfull : st.maxDtors ≤ st.dtors.length
    · simp [hfull] at h
    · simp [hfull] at h
      obtain ⟨ha, hst⟩ := h
      subst hst
      simp [ha]

theorem make_ok_realistic (st : Arena) (size tag k addr : Nat) (st' : Arena)
    (hk : k ≤ 63) (hoff : st.offset ≤ st.cap) (hov : st.cap + 2 ^ k + size ≤ M)
    (h : make st size (2 ^ k) tag = .ok addr st') :
    addr = roundUp st.offset (2 ^ k) ∧
    st.offset ≤ addr ∧ addr + size ≤ st.cap ∧
    st' = { st with offset := addr + size,
                    dtors := st.dtors ++ [⟨tag, addr⟩] } := by
  unfold make push_dtor at h
  rw [allocate_aligned_realistic st.cap st.offset size k hk hoff hov] at h
  by_cases hcap : st.cap < roundUp st.offset (2 ^ k) + size
  · simp [hcap] at h
  · simp [hcap] at h
    by_cases hfull : st.maxDtors ≤ st.dtors.length
    · simp [hfull] at h
    · simp [hfull] at h
      obtain ⟨ha, hst⟩ := h
      subst ha
      exact ⟨rfl, le_roundUp st.offset (2 ^ k) Nat.one_le_two_pow,
        by omega, hst.symm⟩

theorem make_fatal_realistic (st : Arena) (size tag k : Nat) (hk : k ≤ 63)
    (hoff : st.offset ≤ st.cap) (hov : st.cap + 2 ^ k + size ≤ M)
    (hfit : roundUp st.offset (2 ^ k) + size ≤ st.cap)
    (hfull : st.maxDtors ≤ st.dtors.length) :
    make st size (2 ^ k) tag = .fatal (roundUp st.offset (2 ^ k)) := by
  unfold make push_dtor
  rw [allocate_aligned_realistic st.cap st.offset size k hk hoff hov]
  simp [Nat.not_lt.mpr hfit, hfull]

/-! ### The reset loop walks the ledger back to front -/

theorem invoke_from_take (l : List DtorEntry) :
    ∀ n, n ≤ l.length → invoke_from l n = (l.take n).reverse := by
  intro n
  induction n with
  | zero => intro _; simp [invoke_from]
  | succ m ih =>
    intro h
    have hm : m < l.length := by omega
    rw [invoke_from, ih (by omega), List.take_succ, List.reverse_append]
    have h1 : l[m]? = some (l.get ⟨m, hm⟩) := List.getElem?_eq_getElem hm
    have h2 : l.getD m ⟨0, 0⟩ = l.get ⟨m, hm⟩ := by
      simp [List.getD, h1]
    rw [h1, h2]
    simp

theorem invoke_from_length (l : List DtorEntry) :
    invoke_from l l.length = l.reverse := by
  rw [invoke_from_take l l.length (le_refl _), List.take_length]

/-! ### Runs of successful makes -/

theorem runMakes_general (st : Arena) (reqs : List (Nat × Nat × Nat)) :
    ∀ es st', runMakes st reqs = some (es, st') →
      st'.cap = st.cap ∧ st'.maxDtors = st.maxDtors ∧
      st'.dtors = st.dtors ++ es := by
  induction reqs generalizing st with
  | nil =>
    intro es st' h
    simp [runMakes] at h
    obtain ⟨h1, h2⟩ := h
    subst h1; subst h2
    simp
  | cons r rest ih =>
    intro es st' h
    obtain ⟨size, align, tag⟩ := r
    unfold runMakes at h
    cases hm : make st size align tag with
    | ok addr st1 =>
      rw [hm] at h
      rw [Option.map_eq_some'] at h
      obtain ⟨⟨es1, stf⟩, hrun, heq⟩ := h
      obtain ⟨he, hf⟩ := Prod.mk.injEq .. ▸ heq
      obtain ⟨hc, hmx, hd⟩ := ih st1 es1 stf hrun
      obtain ⟨gc, gmx, gd⟩ := make_ok_general st size align tag addr st1 hm
      subst he; subst hf
      refine ⟨hc.trans gc, hmx.trans gmx, ?_⟩
      rw [hd, gd]
      simp
    | fail s => rw [hm] at h; simp at h
    | fatal a => rw [hm] at h; simp at h

/-! ### Offset monotonicity across an active period -/

theorem step_facts (st st' : Arena) (h : Step st st') (hwf : st.offset ≤ st.cap) :
    st.offset ≤ st'.offset ∧ st'.offset ≤ st'.cap ∧ st'.cap = st.cap := by
  cases h with
  | ok size align tag addr hreq hm =>
    obtain ⟨⟨k, hk, halign⟩, hsize, hov⟩ := hreq
    subst halign
    obtain ⟨haddr, hle, hfit, hst⟩ :=
      make_ok_realistic st size tag k addr st' hk hwf hov hm
    subst hst
    refine ⟨by simpa using le_trans hle (Nat.le_add_right addr size), by simpa using hfit, rfl⟩
  | nullStep size align tag hm =>
    obtain ⟨-, hst⟩ := (make_fail_iff st size align tag st').mp hm
    subst hst
    exact ⟨le_refl _, hwf, rfl⟩

theorem steps_facts (st st' : Arena) (h : Relation.ReflTransGen Step st st')
    (hwf : st.offset ≤ st.cap) :
    st.offset ≤ st'.offset ∧ st'.offset ≤ st'.cap ∧ st'.cap = st.cap := by
  induction h with
  | refl => exact ⟨le_refl _, hwf, rfl⟩
  | tail hsteps hstep ih =>
    obtain ⟨h1, h2, h3⟩ := ih
    obtain ⟨g1, g2, g3⟩ := step_facts _ _ hstep h2
    exact ⟨le_trans h1 g1, g2, g3.trans h3⟩

/-! ### Claim theorems -/

/-- C1, counterexample: with `max_finalizers = 1` and ample byte capacity
(capacity 64, 8 of it used by a first 8-byte object), the second `make`
does not fail recoverably with TooManyLiveObjects: the code constructs the
object at offset 8 and only then aborts the whole process (`fatal 8`), so
no recovery (a reset followed by a make) is possible. -/
theorem ledger_overflow_aborts_cex :
    make ⟨64, 1, 0, []⟩ 8 8 1 = .ok 0 ⟨64, 1, 8, [⟨1, 0⟩]⟩ ∧
    make ⟨64, 1, 8, [⟨1, 0⟩]⟩ 8 8 2 = .fatal 8 ∧
    make ⟨64, 1, 8, [⟨1, 0⟩]⟩ 8 8 2 ≠ .fail ⟨64, 1, 8, [⟨1, 0⟩]⟩ :=
  ⟨by decide, by decide, by decide⟩

/-- C1, amended: for an arena whose ledger already holds max_finalizers
entries, a further make with sufficient byte capacity does not fail
recoverably: the object is constructed at the bump-allocated address and
the process is then aborted fail-fast, the ledger-capacity check running
only after construction, so the arena is not usable afterward. -/
theorem ledger_overflow_aborts (st : Arena) (size tag k : Nat) (hk : k ≤ 63)
    (hoff : st.offset ≤ st.cap) (hov : st.cap + 2 ^ k + size ≤ M)
    (hfit : roundUp st.offset (2 ^ k) + size ≤ st.cap)
    (hfull : st.maxDtors ≤ st.dtors.length) :
    make st size (2 ^ k) tag = .fatal (roundUp st.offset (2 ^ k)) :=
  make_fatal_realistic st size tag k hk hoff hov hfit hfull

/-- C1 witness: the amended claim at the concrete ledger-full arena. -/
theorem ledger_overflow_aborts_witness :
    make ⟨64, 1, 8, [⟨1, 0⟩]⟩ 8 (2 ^ 3) 2 = .fatal (roundUp 8 (2 ^ 3)) :=
  ledger_overflow_aborts ⟨64, 1, 8, [⟨1, 0⟩]⟩ 8 2 3
    (by decide) (by decide) (by decide) (by decide) (by decide)

/-- C2: for an arena of capacity C at current offset o, a make request of
size S and alignment Al = 2^k succeeds as a byte allocation iff
round_up(o, Al) + S ≤ C; and make returns a null handle exactly when that
capacity bound is exceeded, in which case no object is constructed and the
arena state (offset and ledger) is exactly the state before the call. -/
theorem make_capacity_boundary (st : Arena) (size tag k : Nat) (hk : k ≤ 63)
    (hoff : st.offset ≤ st.cap) (hov : st.cap + 2 ^ k + size ≤ M) :
    ((allocate_aligned st.cap st.offset size (2 ^ k)).isSome ↔
      roundUp st.offset (2 ^ k) + size ≤ st.cap) ∧
    (∀ st', make st size (2 ^ k) tag = .fail st' ↔
      (st' = st ∧ st.cap < roundUp st.offset (2 ^ k) + size)) := by
  have halloc := allocate_aligned_realistic st.cap st.offset size k hk hoff hov
  constructor
  · rw [halloc]
    by_cases hcap : st.cap < roundUp st.offset (2 ^ k) + size
    · simp [hcap]
    · simp [hcap]
      omega
  · intro st'
    rw [make_fail_iff, halloc]
    by_cases hcap : st.cap < roundUp st.offset (2 ^ k) + size
    · simp [hcap]
    · simp [hcap]

/-- C2 witness: capacity 8 with an 8-byte object of alignment 1 fits
exactly; afterwards a further 1-byte request fails with the arena state
unchanged. -/
theorem make_capacity_boundary_witness :
    ((allocate_aligned 8 0 8 (2 ^ 0)).isSome ↔ roundUp 0 (2 ^ 0) + 8 ≤ 8) ∧
    (make ⟨8, 128, 8, [⟨1, 0⟩]⟩ 1 (2 ^ 0) 2 = .fail ⟨8, 128, 8, [⟨1, 0⟩]⟩ ↔
      ((⟨8, 128, 8, [⟨1, 0⟩]⟩ : Arena) = ⟨8, 128, 8, [⟨1, 0⟩]⟩ ∧
        8 < roundUp 8 (2 ^ 0) + 1)) :=
  ⟨(make_capacity_boundary ⟨8, 128, 0, []⟩ 8 1 0
      (by decide) (by decide) (by decide)).1,
   (make_capacity_boundary ⟨8, 128, 8, [⟨1, 0⟩]⟩ 1 2 0
      (by decide) (by decide) (by decide)).2 ⟨8, 128, 8, [⟨1, 0⟩]⟩⟩

/-- C3: if the ledger was empty at the start of the active period (fresh
arena or just after a reset) and a sequence of makes succeeds,
constructing objects o1, ..., on in this order, then reset invokes their
finalizers exactly in the reverse order on, ..., o1, each exactly once. -/
theorem reset_lifo (st0 stf : Arena) (reqs : List (Nat × Nat × Nat))
    (es : List DtorEntry) (h0 : st0.dtors = [])
    (h : runMakes st0 reqs = some (es, stf)) :
    (reset stf).1 = es.reverse := by
  obtain ⟨-, -, hd⟩ := runMakes_general st0 reqs es stf h
  show invoke_from stf.dtors stf.dtors.length = es.reverse
  rw [invoke_from_length, hd, h0]
  simp

/-- C3 witness: three objects tagged 1, 2, 3 are finalized as 3, 2, 1. -/
theorem reset_lifo_witness :
    (⟨1024, 128, 0, []⟩ : Arena).dtors = [] ∧
    runMakes ⟨1024, 128, 0, []⟩ [(4, 4, 1), (4, 4, 2), (4, 4, 3)] =
      some ([⟨1, 0⟩, ⟨2, 4⟩, ⟨3, 8⟩], ⟨1024, 128, 12, [⟨1, 0⟩, ⟨2, 4⟩, ⟨3, 8⟩]⟩) ∧
    (reset ⟨1024, 128, 12, [⟨1, 0⟩, ⟨2, 4⟩, ⟨3, 8⟩]⟩).1 =
      [DtorEntry.mk 1 0, ⟨2, 4⟩, ⟨3, 8⟩].reverse :=
  ⟨rfl, by decide,
   reset_lifo ⟨1024, 128, 0, []⟩ ⟨1024, 128, 12, [⟨1, 0⟩, ⟨2, 4⟩, ⟨3, 8⟩]⟩
     [(4, 4, 1), (4, 4, 2), (4, 4, 3)] [⟨1, 0⟩, ⟨2, 4⟩, ⟨3, 8⟩] rfl (by decide)⟩

/-- C4: every address returned by a successful make of a type with
size ≥ 1 and alignment 2^k satisfies addr % 2^k = 0 and lies inside the
buffer: addr < capacity, with the whole object in bounds,
addr + size ≤ capacity. -/
theorem make_addr_aligned_in_bounds (st : Arena) (size tag k addr : Nat)
    (st' : Arena) (hk : k ≤ 63) (hsize : 1 ≤ size)
    (hoff : st.offset ≤ st.cap) (hov : st.cap + 2 ^ k + size ≤ M)
    (h : make st size (2 ^ k) tag = .ok addr st') :
    addr % 2 ^ k = 0 ∧ addr < st.cap ∧ addr + size ≤ st.cap := by
  obtain ⟨haddr, hle, hfit, -⟩ :=
    make_ok_realistic st size tag k addr st' hk hoff hov h
  subst haddr
  exact ⟨roundUp_mod _ _, by omega, hfit⟩

/-- C4 witness: from offset 1, a 4-byte object of alignment 4 lands on the
aligned in-bounds address 4. -/
theorem make_addr_aligned_in_bounds_witness :
    4 % 2 ^ 2 = 0 ∧ 4 < 1024 ∧ 4 + 4 ≤ 1024 :=
  make_addr_aligned_in_bounds ⟨1024, 128, 1, []⟩ 4 7 2 4 ⟨1024, 128, 8, [⟨7, 4⟩]⟩
    (by decide) (by decide) (by decide) (by decide) (by decide)

/-- C5: for two successful allocations A (earlier, of size sa) and B
(later) in the same active period — any number of further makes,
successful or returning null, in between and no intervening reset — B's
address is at least A's address plus A's size, so live allocations never
overlap. -/
theorem allocations_no_overlap (st0 st1 st2 st3 : Arena)
    (sa aa ta addrA sb ab tb addrB : Nat)
    (hwf : st0.offset ≤ st0.cap)
    (hra : realisticReq st0.cap sa aa)
    (hA : make st0 sa aa ta = .ok addrA st1)
    (hsteps : Relation.ReflTransGen Step st1 st2)
    (hrb : realisticReq st2.cap sb ab)
    (hB : make st2 sb ab tb = .ok addrB st3) :
    addrA + sa ≤ addrB := by
  obtain ⟨⟨k, hk, halign⟩, hsize, hov⟩ := hra
  subst halign
  obtain ⟨haddrA, hleA, hfitA, hstA⟩ :=
    make_ok_realistic st0 sa ta k addrA st1 hk hwf hov hA
  have h1 : st1.offset = addrA + sa := by rw [hstA]
  have hwf1 : st1.offset ≤ st1.cap := by
    rw [hstA]
    simpa using hfitA
  obtain ⟨hmono, hwf2, hcap2⟩ := steps_facts st1 st2 hsteps hwf1
  obtain ⟨⟨k2, hk2, halign2⟩, hsize2, hov2⟩ := hrb
  subst halign2
  obtain ⟨haddrB, hleB, -, -⟩ :=
    make_ok_realistic st2 sb tb k2 addrB st3 hk2 hwf2 hov2 hB
  omega

/-- C5 witness: two back-to-back 4-byte allocations land at 0 and 4. -/
theorem allocations_no_overlap_witness : (0 : Nat) + 4 ≤ 4 :=
  allocations_no_overlap ⟨1024, 128, 0, []⟩ ⟨1024, 128, 4, [⟨1, 0⟩]⟩
    ⟨1024, 128, 4, [⟨1, 0⟩]⟩ ⟨1024, 128, 8, [⟨1, 0⟩, ⟨2, 4⟩]⟩
    4 4 1 0 4 4 2 4
    (by decide)
    ⟨⟨2, by decide, by decide⟩, by decide, by decide⟩
    (by decide)
    Relation.ReflTransGen.refl
    ⟨⟨2, by decide, by decide⟩, by decide, by decide⟩
    (by decide)

/-- C6: reset always succeeds; after any reset, used() = 0 and the ledger
is empty; and resetting the already-empty arena again invokes no finalizer
and leaves the state exactly unchanged, so a second consecutive reset is a
no-op. -/
theorem reset_idempotent_empty (st : Arena) :
    (reset st).2.offset = 0 ∧ (reset st).2.dtors = [] ∧
    reset ((reset st).2) = ([], (reset st).2) :=
  ⟨rfl, rfl, rfl⟩

/-- C7: a sequence of make requests that all succeeded from a fresh state
(offset 0, empty ledger) succeeds again after a reset of the final state,
producing the identical entries (same tags, same byte ranges) and the same
final state; immediately after the reset, used() = 0. -/
theorem reset_round_trip (st0 st1 : Arena) (reqs : List (Nat × Nat × Nat))
    (es : List DtorEntry) (hoff : st0.offset = 0) (hd : st0.dtors = [])
    (h : runMakes st0 reqs = some (es, st1)) :
    (reset st1).2.offset = 0 ∧ (reset st1).2 = st0 ∧
    runMakes ((reset st1).2) reqs = some (es, st1) := by
  obtain ⟨hcap, hmax, -⟩ := runMakes_general st0 reqs es st1 h
  have hst : (reset st1).2 = st0 := by
    show ({ st1 with dtors := [], offset := 0 } : Arena) = st0
    obtain ⟨c0, m0, o0, d0⟩ := st0
    obtain ⟨c1, m1, o1, d1⟩ := st1
    simp at hcap hmax hoff hd ⊢
    exact ⟨hcap, hmax, hoff.symm, hd⟩
  refine ⟨rfl, hst, ?_⟩
  rw [hst]
  exact h

/-- C7 witness: the three-widget run replays identically after reset. -/
theorem reset_round_trip_witness :
    (reset ⟨1024, 128, 12, [⟨1, 0⟩, ⟨2, 4⟩, ⟨3, 8⟩]⟩).2.offset = 0 ∧
    (reset ⟨1024, 128, 12, [⟨1, 0⟩, ⟨2, 4⟩, ⟨3, 8⟩]⟩).2 = ⟨1024, 128, 0, []⟩ ∧
    runMakes ((reset ⟨1024, 128, 12, [⟨1, 0⟩, ⟨2, 4⟩, ⟨3, 8⟩]⟩).2)
        [(4, 4, 1), (4, 4, 2), (4, 4, 3)] =
      some ([⟨1, 0⟩, ⟨2, 4⟩, ⟨3, 8⟩], ⟨1024, 128, 12, [⟨1, 0⟩, ⟨2, 4⟩, ⟨3, 8⟩]⟩) :=
  reset_round_trip ⟨1024, 128, 0, []⟩ ⟨1024, 128, 12, [⟨1, 0⟩, ⟨2, 4⟩, ⟨3, 8⟩]⟩
    [(4, 4, 1), (4, 4, 2), (4, 4, 3)] [⟨1, 0⟩, ⟨2, 4⟩, ⟨3, 8⟩]
    rfl rfl (by decide)

/-- C8: arena teardown (the destructor) is exactly one reset performed
from whatever state the arena is in: the destructor's invocation trace
coincides with reset's, and it invokes every outstanding finalizer in
reverse construction order. -/
theorem teardown_single_reset (st : Arena) :
    destructor st = (reset st).1 ∧ destructor st = st.dtors.reverse :=
  ⟨rfl, invoke_from_length st.dtors⟩

/-- C9: for every offset x and every alignment 2^k (powers of two are
exactly what alignof produces, and 2^k with k ≤ 63 are those representable
in size_t), provided x + 2^k - 1 does not overflow the 64-bit word, the
bit-mask formula (x + (a-1)) & ~(a-1) computed by align_up in word-size
arithmetic equals the least multiple of 2^k that is ≥ x. -/
theorem align_up_least_multiple (x k : Nat) (hk : k ≤ 63)
    (hx : x + 2 ^ k - 1 < M) :
    align_up x (2 ^ k) % 2 ^ k = 0 ∧ x ≤ align_up x (2 ^ k) ∧
    ∀ y, x ≤ y → y % 2 ^ k = 0 → align_up x (2 ^ k) ≤ y := by
  rw [align_up_pow_eq x k hk hx]
  exact ⟨roundUp_mod _ _, le_roundUp _ _ Nat.one_le_two_pow,
    fun y hxy hy => roundUp_least x _ y Nat.one_le_two_pow hxy hy⟩

/-- C9 witness: align_up 5 4 is a multiple of 4, is at least 5, and is at
most the multiple-of-4 bound 8, hence equals 8. -/
theorem align_up_least_multiple_witness :
    align_up 5 (2 ^ 2) % 2 ^ 2 = 0 ∧ 5 ≤ align_up 5 (2 ^ 2) ∧
    align_up 5 (2 ^ 2) ≤ 8 :=
  ⟨(align_up_least_multiple 5 2 (by decide) (by decide)).1,
   (align_up_least_multiple 5 2 (by decide) (by decide)).2.1,
   (align_up_least_multiple 5 2 (by decide) (by decide)).2.2 8
     (by decide) (by decide)⟩

/-- C10: when the T constructor throws after the bytes were reserved, the
exception propagates out of make (outcome thrown), no finalizer entry is
appended to the ledger, and the offset remains advanced to
round_up(o, Al) + size, strictly past the old offset: the reserved bytes
stay claimed until the next reset, so make is not atomic with respect to
constructor exceptions. -/
theorem make_ctor_throws_nonatomic (st : Arena) (size k : Nat) (st' : Arena)
    (hk : k ≤ 63) (hsize : 1 ≤ size) (hoff : st.offset ≤ st.cap)
    (hov : st.cap + 2 ^ k + size ≤ M)
    (h : make_ctor_throws st size (2 ^ k) = .thrown st') :
    st'.offset = roundUp st.offset (2 ^ k) + size ∧
    st'.dtors = st.dtors ∧ st.offset < st'.offset := by
  unfold make_ctor_throws at h
  rw [allocate_aligned_realistic st.cap st.offset size k hk hoff hov] at h
  by_cases hcap : st.cap < roundUp st.offset (2 ^ k) + size
  · rw [if_pos hcap] at h
    simp at h
  · rw [if_neg hcap] at h
    simp at h
    subst h
    refine ⟨by simp, by simp, ?_⟩
    have hle := le_roundUp st.offset (2 ^ k) Nat.one_le_two_pow
    show st.offset < roundUp st.offset (2 ^ k) + size
    omega

/-- C10 witness: from offset 5, reserving 4 aligned-to-4 bytes and then
throwing leaves offset 12 and the ledger untouched. -/
theorem make_ctor_throws_nonatomic_witness :
    (⟨1024, 128, 12, [⟨1, 0⟩]⟩ : Arena).offset = roundUp 5 (2 ^ 2) + 4 ∧
    (⟨1024, 128, 12, [⟨1, 0⟩]⟩ : Arena).dtors =
      (⟨1024, 128, 5, [⟨1, 0⟩]⟩ : Arena).dtors ∧
    (⟨1024, 128, 5, [⟨1, 0⟩]⟩ : Arena).offset <
      (⟨1024, 128, 12, [⟨1, 0⟩]⟩ : Arena).offset :=
  make_ctor_throws_nonatomic ⟨1024, 128, 5, [⟨1, 0⟩]⟩ 4 2 ⟨1024, 128, 12, [⟨1, 0⟩]⟩
    (by decide) (by decide) (by decide) (by decide) (by decide)

end FixedArena
